import Mathlib

set_option maxHeartbeats 1000000

/-!
Shallow embedding of `src/main.py` (spbu-tt-exams): an exam-timetable batch
script.  Pure functions of the script become Lean functions; Python
exceptions (`IndexError`, `KeyError`, `ValueError`) are modelled by `Option`
or `Except` results; `datetime.date.today()` becomes an explicit `today`
parameter; Python's stable `list.sort` is modelled by insertion sort, which
is stable.
-/

/-- Embeds Python `datetime.date`: a year/month/day triple (validity is
checked by `mkDate`, mirroring the `datetime.date` constructor). -/
structure Date where
  year : Nat
  month : Nat
  day : Nat
deriving DecidableEq, Repr

/-- Strict comparison of dates, as Python compares `datetime.date` values
(lexicographically on year, month, day). -/
def dateLtB (a b : Date) : Bool :=
  if a.year < b.year then true else if b.year < a.year then false
  else if a.month < b.month then true else if b.month < a.month then false
  else decide (a.day < b.day)

/-- Lexicographic (code-point) comparison of char lists: Python string `<=`. -/
def listLe : List Char → List Char → Bool
  | [], _ => true
  | _ :: _, [] => false
  | a :: as, b :: bs => if a < b then true else if b < a then false else listLe as bs

/-- Embeds the `Exam` dataclass.  `where` is a Lean keyword, so that field is
named `where_`.  The `double` flag is set in `__post_init__` and is *not* a
dataclass field (so `asdict` below does not include it). -/
structure Exam where
  educator_id : String
  educator : String
  time : Nat × Nat
  date : Date
  title : String
  where_ : String
  group_full : String
  group : String
  double : Bool
deriving DecidableEq, Repr

/-- Embeds the comprehension `[entry for entry in exam1 if exam1[entry] !=
exam2[entry]]` over `dataclasses.asdict`: the names of the dataclass fields
(in declaration order) on which the two records differ.  `double` is set in
`__post_init__` and is not a dataclass field, so it is not compared. -/
def Exam.diffFields (a b : Exam) : List String :=
  (if a.educator_id ≠ b.educator_id then ["educator_id"] else []) ++
  (if a.educator ≠ b.educator then ["educator"] else []) ++
  (if a.time ≠ b.time then ["time"] else []) ++
  (if a.date ≠ b.date then ["date"] else []) ++
  (if a.title ≠ b.title then ["title"] else []) ++
  (if a.where_ ≠ b.where_ then ["where"] else []) ++
  (if a.group_full ≠ b.group_full then ["group_full"] else []) ++
  (if a.group ≠ b.group then ["group"] else [])

/-- Embeds `Exam.is_double`: the list of dataclass fields on which the two
records differ must be exactly `["educator_id"]`. -/
def Exam.is_double (a b : Exam) : Bool :=
  a.diffFields b == ["educator_id"]

/-- Does `pat` occur at the head of `l`?  Helper for substring search. -/
def leadMatch : List Char → List Char → Bool
  | [], _ => true
  | _ :: _, [] => false
  | a :: as, b :: bs => a == b && leadMatch as bs

/-- Does `pat` occur as a contiguous substring of `l`? -/
def hasSub (pat : List Char) : List Char → Bool
  | [] => pat.isEmpty
  | b :: bs => leadMatch pat (b :: bs) || hasSub pat bs

/-- Embeds the Python `in` operator on strings: substring containment. -/
def strIn (pat s : String) : Bool := hasSub pat.data s.data

/-- Embeds `str.index`: the position of the first occurrence of character
`c`, or `none` where Python raises `ValueError`. -/
def strIdx : List Char → Char → Option Nat
  | [], _ => none
  | b :: bs, c => if b == c then some 0 else (strIdx bs c).map (· + 1)

/-- Numeric value of a digit string, as Python `int` applied to a `\d+`
match. -/
def natOfDigits (l : List Char) : Nat :=
  l.foldl (fun n c => n * 10 + (c.toNat - '0'.toNat)) 0

/-- Embeds matching the anchored regex `^(\d+):(\d+)–(\d+):(\d+)$` of
`parse_time`.  Each `\d+` is followed by a literal that is not a digit, so
greedy matching with backtracking succeeds exactly on the maximal digit
run; returns the numeric values of groups 1 and 2 on a match. -/
def timeMatch (l : List Char) : Option (Nat × Nat) :=
  let g1 := l.takeWhile Char.isDigit
  match l.dropWhile Char.isDigit with
  | ':' :: r1 =>
    let g2 := r1.takeWhile Char.isDigit
    match r1.dropWhile Char.isDigit with
    | '–' :: r2 =>
      let g3 := r2.takeWhile Char.isDigit
      match r2.dropWhile Char.isDigit with
      | ':' :: r3 =>
        if g1.isEmpty || g2.isEmpty || g3.isEmpty || r3.isEmpty ||
            !r3.all Char.isDigit then none
        else some (natOfDigits g1, natOfDigits g2)
      | _ => none
    | _ => none
  | _ => none

/-- Embeds `parse_time`: the start hour/minute pair on a regex match,
`(0, 0)` otherwise.  Total: no operation in the Python body can raise. -/
def parse_time (time_str : String) : Nat × Nat :=
  (timeMatch time_str.data).getD (0, 0)

/-- Embeds matching the anchored regex `^(\d+)\.(\d+)$` of `parse_date`:
the numeric values of the two digit groups on a match. -/
def dateMatch (l : List Char) : Option (Nat × Nat) :=
  let g1 := l.takeWhile Char.isDigit
  match l.dropWhile Char.isDigit with
  | '.' :: r1 =>
    if g1.isEmpty || r1.isEmpty || !r1.all Char.isDigit then none
    else some (natOfDigits g1, natOfDigits r1)
  | _ => none

/-- Gregorian leap year, as in `datetime`. -/
def isLeap (y : Nat) : Bool := y % 4 == 0 && (y % 100 != 0 || y % 400 == 0)

/-- Days in a month, as in `datetime`. -/
def daysInMonth (y m : Nat) : Nat :=
  if m == 2 then (if isLeap y then 29 else 28)
  else if m == 4 || m == 6 || m == 9 || m == 11 then 30 else 31

/-- Embeds the `datetime.date(year, month, day)` constructor: `none` models
the `ValueError` raised on an out-of-range component (`MINYEAR = 1`,
`MAXYEAR = 9999`). -/
def mkDate (y m d : Nat) : Option Date :=
  if 1 ≤ y ∧ y ≤ 9999 ∧ 1 ≤ m ∧ m ≤ 12 ∧ 1 ≤ d ∧ d ≤ daysInMonth y m
  then some ⟨y, m, d⟩ else none

/-- Embeds `parse_date`.  `today` stands for `datetime.date.today()`.
`Except.error ()` models the `ValueError` raised by `datetime.date` on an
invalid component; `Except.ok none` is Python's `return None` on a string
the regex rejects. -/
def parse_date (date_str : String) (today : Date) : Except Unit (Option Date) :=
  match dateMatch date_str.data with
  | none => .ok none
  | some (day, month) =>
    let year := today.year
    let year :=
      if 9 ≤ month ∧ month ≤ 12 ∧ 1 ≤ today.month ∧ today.month ≤ 8 then
        year - 1
      else if 9 ≤ today.month ∧ today.month ≤ 12 ∧ 1 ≤ month ∧ month ≤ 8 then
        year + 1
      else year
    match mkDate year month day with
    | some d => .ok (some d)
    | none => .error ()

/-- The three output buckets (`Обычные`, `Комиссии`, `Прошедшие`). -/
inductive Bucket where
  | regular
  | commission
  | past
deriving DecidableEq, Repr

/-- Embeds the classification loop of `compile_exams_table` (lines
107-114): a record whose full group name contains an excluded-department
marker joins no bucket (`none`); otherwise past if dated strictly before
today, else commission if the title contains "комиссия", else regular. -/
def classify (today : Date) (excluded_depts : List String) (e : Exam) :
    Option Bucket :=
  if excluded_depts.all (fun dept => !strIn dept e.group_full) then
    some (if dateLtB e.date today then .past
          else if strIn "комиссия" e.title then .commission
          else .regular)
  else none

/-- The Python sort key `(exam.date, exam.title)` compared as Python
compares it: lexicographically on ((year, month, day), title code
points). -/
def keyLe (a b : Exam) : Bool :=
  if a.date.year < b.date.year then true
  else if b.date.year < a.date.year then false
  else if a.date.month < b.date.month then true
  else if b.date.month < a.date.month then false
  else if a.date.day < b.date.day then true
  else if b.date.day < a.date.day then false
  else listLe a.title.data b.title.data

/-- `keyLe` as a relation: `a` may precede `b` in an ascending sort. -/
def keyR (a b : Exam) : Prop := keyLe a b = true

/-- The flipped relation used for `reverse=True` (the past bucket). -/
def keyRD (a b : Exam) : Prop := keyLe b a = true

instance : DecidableRel keyR := fun _ _ => inferInstanceAs (Decidable (_ = true))

instance : DecidableRel keyRD := fun _ _ => inferInstanceAs (Decidable (_ = true))

/-- Embeds `bucket.sort(key=lambda exam: (exam.date, exam.title))`:
Python's sort is specified stable, so a stable insertion sort models it. -/
def sortAsc (l : List Exam) : List Exam := l.insertionSort keyR

/-- Embeds the same sort with `reverse=True` (the `Прошедшие` bucket):
Python reverses each comparison but keeps equal elements in order. -/
def sortDesc (l : List Exam) : List Exam := l.insertionSort keyRD

/-- The deduplication walk of `compile_exams_table` (lines 118-124) with
current record `cur`: a next record that is a double of the current one
sets the current record's multi-educator flag and is dropped; otherwise
the current record is emitted and the walk advances. -/
def dedupRun (cur : Exam) : List Exam → List Exam
  | [] => [cur]
  | x :: xs =>
    if cur.is_double x then dedupRun { cur with double := true } xs
    else cur :: dedupRun x xs

/-- Embeds lines 117-125: `bucket.pop(0)` raises `IndexError` on an empty
bucket, modelled by `none`; otherwise the walk starts at the popped first
record. -/
def dedup : List Exam → Option (List Exam)
  | [] => none
  | x :: xs => some (dedupRun x xs)

/-- The literal ` курс)` from the group regex of `render_group`. -/
def kursLit : List Char := (" курс)").data

/-- The character class `[БС0-9]` from the group regex. -/
def grpClass (c : Char) : Bool := c == 'Б' || c == 'С' || c.isDigit

/-- Matches the regex tail `.*(\d) курс\)` against `l`: the digit of the
rightmost position reachable by `.*` (which cannot cross a newline) that
holds a digit followed by the literal " курс)"; greedy `.*` backtracks
from the right, and `re.match` does not anchor the end. -/
def kursFind : List Char → Option Char
  | [] => none
  | c :: rest =>
    match if c ≠ '\n' then kursFind rest else none with
    | some d => some d
    | none => if c.isDigit && leadMatch kursLit rest then some c else none

/-- Embeds matching `^(\d+)\.([БС0-9]+-мм).*(\d) курс\)` from
`render_group`, returning groups 2 and 3.  Each quantified piece is
followed by a literal outside its class, so greedy matching is forced to
the maximal run. -/
def grpMatch (l : List Char) : Option (List Char × Char) :=
  let g1 := l.takeWhile Char.isDigit
  match l.dropWhile Char.isDigit with
  | '.' :: r1 =>
    if g1.isEmpty then none
    else
      let run := r1.takeWhile grpClass
      match r1.dropWhile grpClass with
      | '-' :: 'м' :: 'м' :: r2 =>
        if run.isEmpty then none
        else
          match kursFind r2 with
          | some d => some (run ++ ('-' :: 'м' :: 'м' :: []), d)
          | none => none
      | _ => none
  | _ => none

/-- Python truthiness of the optional group-alias dict: `None` and the
empty dict `{}` are both falsy. -/
def truthy : Option (List (String × String)) → Bool
  | none => false
  | some tbl => !tbl.isEmpty

/-- Embeds `render_group`.  `full_group_name.index(' ')` raises
`ValueError` when the name contains no space, modelled by `none`; the
alias dict is an association list. -/
def render_group (full_group_name : String)
    (group_aliases : Option (List (String × String))) : Option String :=
  match strIdx full_group_name.data ' ' with
  | none => none
  | some i =>
    let group_name : String := ⟨full_group_name.data.take i⟩
    if truthy group_aliases then
      match grpMatch full_group_name.data with
      | some (g2, g3) =>
        match List.lookup (⟨g2⟩ : String) (group_aliases.getD []) with
        | some al =>
          some (group_name ++ " (" ++ String.singleton g3 ++ al ++ ")")
        | none => some group_name
      | none => some group_name
    else some group_name

/-- Embeds `render_educator`: a required dict lookup; `none` models the
`KeyError` raised on an absent identifier. -/
def render_educator (educator_id : String)
    (educator_aliases : List (String × String)) : Option String :=
  List.lookup educator_id educator_aliases

/-- Embeds lines 129-133 of `compile_exams_table` for one record: fill the
educator display name (suffixed with " et al." exactly when the
multi-educator flag is set) and the group display name; `none` models an
uncaught exception from either rendering step. -/
def renderExam (educator_aliases : List (String × String))
    (group_aliases : Option (List (String × String))) (e : Exam) :
    Option Exam :=
  match render_educator e.educator_id educator_aliases with
  | none => none
  | some nm =>
    let nm2 := if e.double then nm ++ " et al." else nm
    match render_group e.group_full group_aliases with
    | none => none
    | some g => some { e with educator := nm2, group := g }

/-- The rendering loop over one bucket (an exception stops the run). -/
def renderBucket (educator_aliases : List (String × String))
    (group_aliases : Option (List (String × String))) :
    List Exam → Option (List Exam)
  | [] => some []
  | e :: rest =>
    match renderExam educator_aliases group_aliases e with
    | none => none
    | some e2 =>
      match renderBucket educator_aliases group_aliases rest with
      | none => none
      | some rest2 => some (e2 :: rest2)

/-- Embeds the in-memory part of `compile_exams_table` (lines 100-133), up
to but not including the final text formatting: classify into the three
buckets (each bucket keeps input order), sort (ascending, ascending,
descending), deduplicate, render.  `none` models any uncaught
exception. -/
def compileExams (today : Date) (excluded_depts : List String)
    (educator_aliases : List (String × String))
    (group_aliases : Option (List (String × String)))
    (exams_list : List Exam) : Option (List Exam × List Exam × List Exam) :=
  let reg := exams_list.filter
    (fun e => classify today excluded_depts e == some .regular)
  let com := exams_list.filter
    (fun e => classify today excluded_depts e == some .commission)
  let pas := exams_list.filter
    (fun e => classify today excluded_depts e == some .past)
  match dedup (sortAsc reg), dedup (sortAsc com), dedup (sortDesc pas) with
  | some r, some c, some p =>
    match renderBucket educator_aliases group_aliases r,
          renderBucket educator_aliases group_aliases c,
          renderBucket educator_aliases group_aliases p with
    | some r2, some c2, some p2 => some (r2, c2, p2)
    | _, _, _ => none
  | _, _, _ => none

/-- The six fields of an exam record that the spec declares immutable after
creation: educator identifier, time, date, title, location, full group
name. -/
def Exam.core (e : Exam) : String × (Nat × Nat) × Date × String × String × String :=
  (e.educator_id, e.time, e.date, e.title, e.where_, e.group_full)

/-- A concrete exam record used as a base point in examples. -/
def e0 : Exam :=
  { educator_id := "1001", educator := "", time := (12, 0),
    date := ⟨2026, 10, 20⟩, title := "экзамен Алгебра", where_ := "ауд. 1",
    group_full := "МАТ-1 (1 курс)", group := "", double := false }

/-- A concrete commission-bucket record used in the C8 witness. -/
def eCom : Exam := { e0 with educator_id := "1002", title := "комиссия экзамен" }

/-- A concrete past-bucket record used in the C8 witness. -/
def ePast : Exam := { e0 with educator_id := "1003", date := ⟨2026, 1, 5⟩ }


theorem is_double_characterisation (a b : Exam) :
    a.is_double b = true ↔
      a.educator_id ≠ b.educator_id ∧ a.educator = b.educator ∧
        a.time = b.time ∧ a.date = b.date ∧ a.title = b.title ∧
        a.where_ = b.where_ ∧ a.group_full = b.group_full ∧
        a.group = b.group := by
  simp only [Exam.is_double, Exam.diffFields]
  split_ifs <;> simp_all

theorem listLe_refl (l : List Char) : listLe l l = true := by
  induction l with
  | nil => rfl
  | cons a as ih => simp [listLe, ih]

theorem listLe_total (a b : List Char) : listLe a b = true ∨ listLe b a = true := by
  induction a generalizing b with
  | nil => left; rfl
  | cons x xs ih =>
    cases b with
    | nil => right; rfl
    | cons y ys =>
      rcases lt_trichotomy x y with h | h | h
      · left; simp [listLe, h]
      · subst h
        rcases ih ys with h2 | h2
        · left; simp [listLe, h2]
        · right; simp [listLe, h2]
      · right; simp [listLe, h]

theorem listLe_trans {a b c : List Char} (h1 : listLe a b = true)
    (h2 : listLe b c = true) : listLe a c = true := by
  induction a generalizing b c with
  | nil => rfl
  | cons x xs ih =>
    cases b with
    | nil => simp [listLe] at h1
    | cons y ys =>
      cases c with
      | nil => simp [listLe] at h2
      | cons z zs =>
        rcases lt_trichotomy x y with hxy | hxy | hxy
        · rcases lt_trichotomy y z with hyz | hyz | hyz
          · simp [listLe, lt_trans hxy hyz]
          · subst hyz; simp [listLe, hxy]
          · simp [listLe, lt_asymm hyz, hyz] at h2
        · subst hxy
          rcases lt_trichotomy x z with hxz | hxz | hxz
          · simp [listLe, hxz]
          · subst hxz
            simp only [listLe, lt_irrefl, if_false] at h1 h2 ⊢
            exact ih h1 h2
          · simp [listLe, lt_asymm hxz, hxz] at h2
        · simp [listLe, lt_asymm hxy, hxy] at h1

theorem ifchain_total {x y : Nat} {f g : Bool} (hfg : f = true ∨ g = true) :
    (if x < y then true else if y < x then false else f) = true ∨
      (if y < x then true else if x < y then false else g) = true := by
  rcases lt_trichotomy x y with h | h | h
  · left; simp [h]
  · subst h; simpa using hfg
  · right; simp [h]

theorem ifchain_trans {x y z : Nat} {f g h : Bool}
    (hstep : f = true → g = true → h = true)
    (h1 : (if x < y then true else if y < x then false else f) = true)
    (h2 : (if y < z then true else if z < y then false else g) = true) :
    (if x < z then true else if z < x then false else h) = true := by
  rcases lt_trichotomy x y with hxy | hxy | hxy
  · rcases lt_trichotomy y z with hyz | hyz | hyz
    · simp [lt_trans hxy hyz]
    · subst hyz; simp [hxy]
    · simp [lt_asymm hyz, hyz] at h2
  · subst hxy
    rcases lt_trichotomy x z with hxz | hxz | hxz
    · simp [hxz]
    · subst hxz
      simp only [lt_irrefl, if_false] at h1 h2 ⊢
      exact hstep h1 h2
    · simp [lt_asymm hxz, hxz] at h2
  · simp [lt_asymm hxy, hxy] at h1

theorem keyLe_total (a b : Exam) : keyLe a b = true ∨ keyLe b a = true := by
  unfold keyLe
  exact ifchain_total (ifchain_total (ifchain_total (listLe_total _ _)))

theorem keyLe_trans {a b c : Exam} (h1 : keyLe a b = true)
    (h2 : keyLe b c = true) : keyLe a c = true := by
  unfold keyLe at h1 h2 ⊢
  exact ifchain_trans (ifchain_trans (ifchain_trans listLe_trans)) h1 h2

theorem keyLe_of_eq {a b : Exam} (hd : a.date = b.date) (ht : a.title = b.title) :
    keyLe a b = true := by
  unfold keyLe
  rw [hd, ht]
  simp [listLe_refl]

theorem sortAsc_sorted (l : List Exam) : List.Sorted keyR (sortAsc l) := by
  haveI : IsTotal Exam keyR := ⟨keyLe_total⟩
  haveI : IsTrans Exam keyR := ⟨fun _ _ _ => keyLe_trans⟩
  exact List.sorted_insertionSort keyR l

theorem sortDesc_sorted (l : List Exam) : List.Sorted keyRD (sortDesc l) := by
  haveI : IsTotal Exam keyRD := ⟨fun a b => keyLe_total b a⟩
  haveI : IsTrans Exam keyRD := ⟨fun _ _ _ h1 h2 => keyLe_trans h2 h1⟩
  exact List.sorted_insertionSort keyRD l

/-- C5: before deduplication every bucket is sorted on the key
`(date, title)` — ascending for the regular and commission buckets
(`sortAsc`, used by `compileExams` for those buckets), descending for the
past bucket (`sortDesc`) — the result is a permutation of the input, and
the sort is stable: two records with equal keys keep their relative
order. -/
theorem C5_bucket_sort_properties (l : List Exam) :
    (List.Sorted keyR (sortAsc l) ∧ (sortAsc l).Perm l ∧
      ∀ a b : Exam, a.date = b.date → a.title = b.title →
        List.Sublist [a, b] l → List.Sublist [a, b] (sortAsc l)) ∧
    (List.Sorted keyRD (sortDesc l) ∧ (sortDesc l).Perm l ∧
      ∀ a b : Exam, a.date = b.date → a.title = b.title →
        List.Sublist [a, b] l → List.Sublist [a, b] (sortDesc l)) := by
  refine ⟨⟨sortAsc_sorted l, List.perm_insertionSort keyR l, ?_⟩,
    ⟨sortDesc_sorted l, List.perm_insertionSort keyRD l, ?_⟩⟩
  · intro a b hd ht hsub
    exact List.pair_sublist_insertionSort (keyLe_of_eq hd ht) hsub
  · intro a b hd ht hsub
    exact List.pair_sublist_insertionSort
      (keyLe_of_eq hd.symm ht.symm : keyRD a b) hsub

/-- Witness for C5: in a two-record bucket with equal keys the records keep
their order through the ascending sort. -/
theorem C5_witness :
    List.Sublist [e0, { e0 with educator_id := "1002" }]
      (sortAsc [e0, { e0 with educator_id := "1002" }]) :=
  (C5_bucket_sort_properties [e0, { e0 with educator_id := "1002" }]).1.2.2
    e0 { e0 with educator_id := "1002" } rfl rfl (List.Sublist.refl _)

/-- C2 (amended): `is_double` returns `true` iff the educator identifiers
differ and every other dataclass field is equal.  (On records equal in all
fields the differing-field list is empty, not `["educator_id"]`, so
`is_double` is `false`; the derived `double` flag is not a dataclass field
and is never compared.) -/
theorem C2_is_double_iff (a b : Exam) :
    a.is_double b = true ↔
      a.educator_id ≠ b.educator_id ∧ a.educator = b.educator ∧
        a.time = b.time ∧ a.date = b.date ∧ a.title = b.title ∧
        a.where_ = b.where_ ∧ a.group_full = b.group_full ∧
        a.group = b.group :=
  is_double_characterisation a b

/-- C2 counterexample: a record agrees with itself on every field,
educator identifier included, yet `is_double` returns `false` — the claim
demands `true` there. -/
theorem C2_counterexample : e0.is_double e0 = false := by decide

/-- C3: the code path for the empty bucket — `bucket.pop(0)` raises
`IndexError`, modelled by `none`, where the spec demands an empty output
list; a singleton bucket is returned unchanged (all fields intact, flag
still false). -/
theorem C3_dedup_empty_raises_singleton_unchanged :
    dedup ([] : List Exam) = none ∧ ∀ e : Exam, dedup [e] = some [e] :=
  ⟨rfl, fun _ => rfl⟩

theorem is_double_set_double (a b : Exam) (d : Bool) :
    ({ a with double := d } : Exam).is_double b = a.is_double b := rfl

theorem is_double_key {a b : Exam} (h : a.is_double b = true) :
    a.date = b.date ∧ a.title = b.title := by
  have hc := (is_double_characterisation a b).mp h
  exact ⟨hc.2.2.2.1, hc.2.2.2.2.1⟩

theorem dedupRun_all_doubles (a : Exam) (l : List Exam)
    (h : ∀ b ∈ l, a.is_double b = true) :
    dedupRun a l = [if l.isEmpty then a else { a with double := true }] := by
  induction l generalizing a with
  | nil => rfl
  | cons x xs ih =>
    have hx : a.is_double x = true := h x (List.mem_cons_self x xs)
    have hall : ∀ b ∈ xs, ({ a with double := true } : Exam).is_double b = true := by
      intro b hb
      rw [is_double_set_double]
      exact h b (List.mem_cons_of_mem x hb)
    simp only [dedupRun, hx, if_true]
    rw [ih _ hall]
    cases xs <;> simp

theorem sortAsc_const_key (l : List Exam) (dt : Date) (ti : String)
    (h : ∀ x ∈ l, x.date = dt ∧ x.title = ti) : sortAsc l = l := by
  apply List.Sorted.insertionSort_eq
  apply List.pairwise_of_forall_mem_list
  intro a ha b hb
  exact keyLe_of_eq ((h a ha).1.trans (h b hb).1.symm)
    ((h a ha).2.trans (h b hb).2.symm)

/-- C1 counterexample: records `A` (= `e0`) and `C` differ only in the
educator identifier, yet with `B` (same date and title, different
location) sitting between them in the stable sort, the deduplicator's
output keeps both `A` and `C` as distinct records and sets no
multi-educator flag — the claim demands a single merged flagged record in
their place. -/
theorem C1_counterexample :
    (e0.is_double { e0 with educator_id := "1003" } = true ∧
        e0 ≠ { e0 with educator_id := "1003" }) ∧
      dedup (sortAsc [e0, { e0 with educator_id := "1002", where_ := "ауд. 2" },
          { e0 with educator_id := "1003" }]) =
        some [e0, { e0 with educator_id := "1002", where_ := "ауд. 2" },
          { e0 with educator_id := "1003" }] ∧
      ∀ e ∈ [e0, { e0 with educator_id := "1002", where_ := "ауд. 2" },
          { e0 with educator_id := "1003" }], e.double = false := by
  decide

/-- C1 (amended): when every record of the bucket after the first differs
from the first only in the educator identifier (so the same-exam records
are contiguous after sorting and carry distinct identifiers), the
deduplicator replaces them all by the single first record with its
multi-educator flag set. -/
theorem C1_merge_doubles_of_first (a : Exam) (l : List Exam) (hne : l ≠ [])
    (h : ∀ b ∈ l, a.is_double b = true) :
    dedup (sortAsc (a :: l)) = some [{ a with double := true }] := by
  have hs : sortAsc (a :: l) = a :: l := by
    apply sortAsc_const_key (a :: l) a.date a.title
    intro x hx
    rcases List.mem_cons.mp hx with rfl | hx
    · exact ⟨rfl, rfl⟩
    · have hk := is_double_key (h x hx)
      exact ⟨hk.1.symm, hk.2.symm⟩
  rw [hs]
  simp only [dedup]
  rw [dedupRun_all_doubles a l h]
  cases l with
  | nil => exact absurd rfl hne
  | cons _ _ => simp

/-- Witness for C1: a two-record bucket differing only in the educator
identifier collapses to the single first record with the flag set. -/
theorem C1_witness :
    dedup (sortAsc [e0, { e0 with educator_id := "1002" }]) =
      some [{ e0 with double := true }] :=
  C1_merge_doubles_of_first e0 [{ e0 with educator_id := "1002" }]
    (by decide) (by decide)

/-- C4: a record without an excluded-department marker is classified past
when dated strictly before today, else commission when its title contains
"комиссия", else regular; a record with an excluded marker joins no
bucket; and for surviving records the bucket depends only on
date-versus-today and the title. -/
theorem C4_classifier (today : Date) (excluded_depts : List String) :
    (∀ e : Exam,
      excluded_depts.all (fun dept => !strIn dept e.group_full) = true →
      classify today excluded_depts e =
        some (if dateLtB e.date today then .past
              else if strIn "комиссия" e.title then .commission
              else .regular)) ∧
    (∀ e : Exam,
      excluded_depts.all (fun dept => !strIn dept e.group_full) = false →
      classify today excluded_depts e = none) ∧
    (∀ e1 e2 : Exam,
      excluded_depts.all (fun dept => !strIn dept e1.group_full) = true →
      excluded_depts.all (fun dept => !strIn dept e2.group_full) = true →
      dateLtB e1.date today = dateLtB e2.date today →
      e1.title = e2.title →
      classify today excluded_depts e1 = classify today excluded_depts e2) := by
  refine ⟨?_, ?_, ?_⟩
  · intro e h; simp [classify, h]
  · intro e h; simp [classify, h]
  · intro e1 e2 h1 h2 hdate htitle
    simp [classify, h1, h2, hdate, htitle]

/-- Witness for C4: a concrete surviving record is assigned by the
date/title rule (here: a future date, no commission marker, so the regular
bucket). -/
theorem C4_witness :
    classify ⟨2026, 10, 12⟩ ["мкн"] e0 =
      some (if dateLtB e0.date ⟨2026, 10, 12⟩ then .past
            else if strIn "комиссия" e0.title then .commission
            else .regular) :=
  (C4_classifier ⟨2026, 10, 12⟩ ["мкн"]).1 e0 (by decide)

theorem isEmpty_false_of_ne_nil {z : List Char} (h : z ≠ []) : z.isEmpty = false := by
  cases z with
  | nil => exact absurd rfl h
  | cons _ _ => rfl

theorem ne_nil_of_isEmpty_false {z : List Char} (h : z.isEmpty = false) : z ≠ [] := by
  cases z with
  | nil => simp at h
  | cons _ _ => simp

theorem takeWhile_app {p : Char → Bool} {ds : List Char} (h : ds.all p = true)
    {c : Char} (hc : p c = false) (rest : List Char) :
    (ds ++ c :: rest).takeWhile p = ds := by
  induction ds with
  | nil => simp [List.takeWhile_cons, hc]
  | cons a as ih =>
    simp only [List.all_cons, Bool.and_eq_true] at h
    simp [List.takeWhile_cons, h.1, ih h.2]

theorem dropWhile_app {p : Char → Bool} {ds : List Char} (h : ds.all p = true)
    {c : Char} (hc : p c = false) (rest : List Char) :
    (ds ++ c :: rest).dropWhile p = c :: rest := by
  induction ds with
  | nil => simp [List.dropWhile_cons, hc]
  | cons a as ih =>
    simp only [List.all_cons, Bool.and_eq_true] at h
    simp [List.dropWhile_cons, h.1, ih h.2]

theorem all_takeWhile (p : Char → Bool) (l : List Char) :
    (l.takeWhile p).all p = true :=
  List.all_eq_true.mpr fun _ hx => List.mem_takeWhile_imp hx

theorem timeMatch_app {a b c d : List Char}
    (ha : a ≠ []) (ha2 : a.all Char.isDigit = true)
    (hb : b ≠ []) (hb2 : b.all Char.isDigit = true)
    (hc : c ≠ []) (hc2 : c.all Char.isDigit = true)
    (hd : d ≠ []) (hd2 : d.all Char.isDigit = true) :
    timeMatch (a ++ ':' :: (b ++ '–' :: (c ++ ':' :: d))) =
      some (natOfDigits a, natOfDigits b) := by
  have h1 : Char.isDigit ':' = false := by decide
  have h2 : Char.isDigit '–' = false := by decide
  simp only [timeMatch, takeWhile_app ha2 h1, dropWhile_app ha2 h1,
    takeWhile_app hb2 h2, dropWhile_app hb2 h2,
    takeWhile_app hc2 h1, dropWhile_app hc2 h1]
  simp [isEmpty_false_of_ne_nil ha, isEmpty_false_of_ne_nil hb,
    isEmpty_false_of_ne_nil hc, isEmpty_false_of_ne_nil hd, hd2]


theorem timeMatch_some {l : List Char} {x y : Nat}
    (h : timeMatch l = some (x, y)) :
    ∃ a b c d : List Char, l = a ++ ':' :: (b ++ '–' :: (c ++ ':' :: d)) ∧
      a ≠ [] ∧ a.all Char.isDigit = true ∧ b ≠ [] ∧ b.all Char.isDigit = true ∧
      c ≠ [] ∧ c.all Char.isDigit = true ∧ d ≠ [] ∧ d.all Char.isDigit = true ∧
      x = natOfDigits a ∧ y = natOfDigits b := by
  unfold timeMatch at h
  split at h
  case _ r1 heq1 =>
    split at h
    case _ r2 heq2 =>
      split at h
      case _ r3 heq3 =>
        simp only [] at h
        split at h
        · exact absurd h (by simp)
        case _ hcond =>
          rw [Bool.not_eq_true] at hcond
          simp only [Bool.or_eq_false_iff, Bool.not_eq_false'] at hcond
          obtain ⟨⟨⟨⟨e1, e2⟩, e3⟩, e4⟩, e5⟩ := hcond
          injection h with h'
          injection h' with hx hy
          have hl1 : l = l.takeWhile Char.isDigit ++ ':' :: r1 := by
            rw [← heq1, List.takeWhile_append_dropWhile]
          have hl2 : r1 = r1.takeWhile Char.isDigit ++ '–' :: r2 := by
            rw [← heq2, List.takeWhile_append_dropWhile]
          have hl3 : r2 = r2.takeWhile Char.isDigit ++ ':' :: r3 := by
            rw [← heq3, List.takeWhile_append_dropWhile]
          refine ⟨l.takeWhile Char.isDigit, r1.takeWhile Char.isDigit,
            r2.takeWhile Char.isDigit, r3, ?_, ne_nil_of_isEmpty_false e1,
            all_takeWhile _ _, ne_nil_of_isEmpty_false e2, all_takeWhile _ _,
            ne_nil_of_isEmpty_false e3, all_takeWhile _ _,
            ne_nil_of_isEmpty_false e4, e5, hx.symm, hy.symm⟩
          rw [← hl3, ← hl2, ← hl1]
      · exact absurd h (by simp)
    · exact absurd h (by simp)
  · exact absurd h (by simp)

/-- C10: `parse_time` is total.  On any string decomposing as
digits `:` digits `–` digits `:` digits it returns the numeric
(hour, minute) start pair, and on any string admitting no such
decomposition (the regex fails) it returns `(0, 0)` — it never raises. -/
theorem C10_parse_time_total_characterisation :
    (∀ a b c d : List Char, a ≠ [] → a.all Char.isDigit = true →
      b ≠ [] → b.all Char.isDigit = true → c ≠ [] → c.all Char.isDigit = true →
      d ≠ [] → d.all Char.isDigit = true →
      parse_time ⟨a ++ ':' :: (b ++ '–' :: (c ++ ':' :: d))⟩ =
        (natOfDigits a, natOfDigits b)) ∧
    (∀ s : String,
      (¬ ∃ a b c d : List Char,
        s.data = a ++ ':' :: (b ++ '–' :: (c ++ ':' :: d)) ∧
        a ≠ [] ∧ a.all Char.isDigit = true ∧ b ≠ [] ∧ b.all Char.isDigit = true ∧
        c ≠ [] ∧ c.all Char.isDigit = true ∧ d ≠ [] ∧ d.all Char.isDigit = true) →
      parse_time s = (0, 0)) := by
  constructor
  · intro a b c d ha ha2 hb hb2 hc hc2 hd hd2
    simp [parse_time, timeMatch_app ha ha2 hb hb2 hc hc2 hd hd2]
  · intro s hno
    cases h : timeMatch s.data with
    | none => simp [parse_time, h]
    | some v =>
      obtain ⟨x, y⟩ := v
      obtain ⟨a, b, c, d, h1, h2, h3, h4, h5, h6, h7, h8, h9, _, _⟩ :=
        timeMatch_some h
      exact absurd ⟨a, b, c, d, h1, h2, h3, h4, h5, h6, h7, h8, h9⟩ hno

/-- Witness for C10: the well-formed time string `9:30–11:05` yields the
start pair `(9, 30)`. -/
theorem C10_witness : parse_time "9:30–11:05" = (9, 30) :=
  C10_parse_time_total_characterisation.1 "9".data "30".data "11".data "05".data
    (by decide) (by decide) (by decide) (by decide)
    (by decide) (by decide) (by decide) (by decide)

theorem dateMatch_app {a b : List Char}
    (ha : a ≠ []) (ha2 : a.all Char.isDigit = true)
    (hb : b ≠ []) (hb2 : b.all Char.isDigit = true) :
    dateMatch (a ++ '.' :: b) = some (natOfDigits a, natOfDigits b) := by
  have h1 : Char.isDigit '.' = false := by decide
  simp only [dateMatch, takeWhile_app ha2 h1, dropWhile_app ha2 h1]
  simp [isEmpty_false_of_ne_nil ha, isEmpty_false_of_ne_nil hb, hb2]

theorem dateMatch_some {l : List Char} {x y : Nat}
    (h : dateMatch l = some (x, y)) :
    ∃ a b : List Char, l = a ++ '.' :: b ∧ a ≠ [] ∧ a.all Char.isDigit = true ∧
      b ≠ [] ∧ b.all Char.isDigit = true ∧
      x = natOfDigits a ∧ y = natOfDigits b := by
  unfold dateMatch at h
  split at h
  case _ r1 heq1 =>
    simp only [] at h
    split at h
    · exact absurd h (by simp)
    case _ hcond =>
      rw [Bool.not_eq_true] at hcond
      simp only [Bool.or_eq_false_iff, Bool.not_eq_false'] at hcond
      obtain ⟨⟨e1, e2⟩, e3⟩ := hcond
      injection h with h'
      injection h' with hx hy
      have hl1 : l = l.takeWhile Char.isDigit ++ '.' :: r1 := by
        rw [← heq1, List.takeWhile_append_dropWhile]
      exact ⟨l.takeWhile Char.isDigit, r1, hl1, ne_nil_of_isEmpty_false e1,
        all_takeWhile _ _, ne_nil_of_isEmpty_false e2, e3, hx.symm, hy.symm⟩
  · exact absurd h (by simp)

/-- C9 counterexample: the string `1.13` is of the form `D.M` (it matches
the regex, with day 1 and month 13), but `parse_date` raises `ValueError`
(modelled `.error ()`) instead of returning a date carrying the inferred
year, because month 13 is rejected by the `datetime.date` constructor. -/
theorem C9_counterexample :
    dateMatch ("1.13").data = some (1, 13) ∧
      parse_date "1.13" (⟨2026, 10, 12⟩ : Date) = .error () :=
  ⟨by decide, rfl⟩

/-- C9 (amended): for every string of the form digits `.` digits, the year
is inferred exactly as the claim states (current year; previous year when
the parsed month lies in 9..12 while today's month lies in 1..8; next year
when today's month lies in 9..12 while the parsed month lies in 1..8) and
the resulting date is returned — provided day, month and the inferred year
form a valid `datetime.date`, otherwise `ValueError` is raised; for every
string not of that form the function returns `None`. -/
theorem C9_parse_date_year_inference (today : Date) :
    (∀ ds ms : List Char, ds ≠ [] → ds.all Char.isDigit = true →
      ms ≠ [] → ms.all Char.isDigit = true →
      parse_date ⟨ds ++ '.' :: ms⟩ today =
        match mkDate
            (if 9 ≤ natOfDigits ms ∧ natOfDigits ms ≤ 12 ∧
                1 ≤ today.month ∧ today.month ≤ 8 then today.year - 1
             else if 9 ≤ today.month ∧ today.month ≤ 12 ∧
                1 ≤ natOfDigits ms ∧ natOfDigits ms ≤ 8 then today.year + 1
             else today.year)
            (natOfDigits ms) (natOfDigits ds) with
        | some dt => Except.ok (some dt)
        | none => Except.error ()) ∧
    (∀ s : String,
      (¬ ∃ ds ms : List Char, s.data = ds ++ '.' :: ms ∧ ds ≠ [] ∧
        ds.all Char.isDigit = true ∧ ms ≠ [] ∧ ms.all Char.isDigit = true) →
      parse_date s today = .ok none) := by
  constructor
  · intro ds ms h1 h2 h3 h4
    show parse_date ⟨ds ++ '.' :: ms⟩ today = _
    unfold parse_date
    rw [show (⟨ds ++ '.' :: ms⟩ : String).data = ds ++ '.' :: ms from rfl,
      dateMatch_app h1 h2 h3 h4]
  · intro s hno
    cases h : dateMatch s.data with
    | none => simp [parse_date, h]
    | some v =>
      obtain ⟨x, y⟩ := v
      obtain ⟨a, b, h1, h2, h3, h4, h5, _, _⟩ := dateMatch_some h
      exact absurd ⟨a, b, h1, h2, h3, h4, h5⟩ hno

/-- Witness for C9: parsing `5.10` when today is 2026-01-15 (today's month
in 1..8, parsed month in 9..12) yields October 5 of the *previous* year,
2025. -/
theorem C9_witness :
    parse_date "5.10" (⟨2026, 1, 15⟩ : Date) =
      .ok (some (⟨2025, 10, 5⟩ : Date)) :=
  (C9_parse_date_year_inference ⟨2026, 1, 15⟩).1 "5".data "10".data
    (by decide) (by decide) (by decide) (by decide)

/-- C6 counterexample: on a full group name containing no space (and no
alias table) `render_group` raises `ValueError` from
`full_group_name.index(' ')` (modelled `none`) instead of returning a raw
prefix — the claim asserts totality for *every* full group name. -/
theorem C6_counterexample : render_group "МКН" none = none := rfl

/-- C6 (amended): for every full group name that contains a space (` ` at
index `i`), rendering is deterministic and total: when the alias table is
missing or empty, or the group-code pattern does not match, or the matched
code has no alias entry, `render_group` returns the raw prefix of the name
before the first space, without raising. -/
theorem C6_render_group_fallback (full : String)
    (tbl : Option (List (String × String))) (i : Nat)
    (hi : strIdx full.data ' ' = some i) :
    (truthy tbl = false → render_group full tbl = some ⟨full.data.take i⟩) ∧
    (grpMatch full.data = none → render_group full tbl = some ⟨full.data.take i⟩) ∧
    (∀ g2 g3, grpMatch full.data = some (g2, g3) →
      List.lookup (⟨g2⟩ : String) (tbl.getD []) = none →
      render_group full tbl = some ⟨full.data.take i⟩) := by
  refine ⟨?_, ?_, ?_⟩
  · intro ht
    simp [render_group, hi, ht]
  · intro hm
    cases ht : truthy tbl <;> simp [render_group, hi, ht, hm]
  · intro g2 g3 hm hlk
    cases ht : truthy tbl <;> simp [render_group, hi, ht, hm, hlk]

/-- Witness for C6: a name with a space and a missing alias table falls
back to the raw prefix. -/
theorem C6_witness : render_group "АБ 1" none = some ⟨("АБ 1").data.take 2⟩ :=
  (C6_render_group_fallback "АБ 1" none 2 (by decide)).1 rfl

/-- C7: educator rendering is a required alias lookup — it returns the
stored display name for a present identifier, and for an absent identifier
it fails (`KeyError`, modelled `none`) rather than falling back; in the
pipeline's rendering step (`renderExam`) the educator display name gets
the " et al." suffix exactly when the record's multi-educator flag is
set, and an absent identifier aborts the rendering. -/
theorem C7_render_educator_required (ea : List (String × String)) :
    (∀ id nm, List.lookup id ea = some nm → render_educator id ea = some nm) ∧
    (∀ id, List.lookup id ea = none → render_educator id ea = none) ∧
    (∀ ga e e', renderExam ea ga e = some e' →
      ∃ nm, render_educator e.educator_id ea = some nm ∧
        e'.educator = (if e.double then nm ++ " et al." else nm)) ∧
    (∀ ga e, render_educator e.educator_id ea = none →
      renderExam ea ga e = none) := by
  refine ⟨fun id nm h => h, fun id h => h, ?_, ?_⟩
  · intro ga e e' h
    unfold renderExam at h
    split at h
    · exact absurd h (by simp)
    case _ nm hnm =>
      refine ⟨nm, hnm, ?_⟩
      cases hg : render_group e.group_full ga with
      | none => rw [hg] at h; simp at h
      | some g =>
        rw [hg] at h
        injection h with h'
        rw [← h']
  · intro ga e h
    unfold renderExam
    rw [h]

/-- Witness for C7: a present identifier resolves to its display name. -/
theorem C7_witness :
    render_educator "1001" [("1001", "Иванов")] = some "Иванов" :=
  (C7_render_educator_required [("1001", "Иванов")]).1 "1001" "Иванов" (by decide)

theorem dedupRun_core (cur : Exam) (l : List Exam) :
    ∀ e' ∈ dedupRun cur l, e'.core = cur.core ∨ ∃ e ∈ l, e'.core = e.core := by
  induction l generalizing cur with
  | nil =>
    intro e' he'
    simp only [dedupRun, List.mem_singleton] at he'
    subst he'
    exact Or.inl rfl
  | cons x xs ih =>
    intro e' he'
    simp only [dedupRun] at he'
    by_cases hd : cur.is_double x = true
    · rw [if_pos hd] at he'
      rcases ih _ e' he' with h | ⟨e, he, hc⟩
      · exact Or.inl h
      · exact Or.inr ⟨e, List.mem_cons_of_mem x he, hc⟩
    · rw [if_neg hd] at he'
      rcases List.mem_cons.mp he' with rfl | he2
      · exact Or.inl rfl
      · rcases ih x e' he2 with h | ⟨e, he, hc⟩
        · exact Or.inr ⟨x, List.mem_cons_self x xs, h⟩
        · exact Or.inr ⟨e, List.mem_cons_of_mem x he, hc⟩

theorem dedup_core {l l' : List Exam} (h : dedup l = some l') :
    ∀ e' ∈ l', ∃ e ∈ l, e'.core = e.core := by
  cases l with
  | nil => exact absurd h (by simp [dedup])
  | cons x xs =>
    intro e' he'
    injection h with h'
    subst h'
    rcases dedupRun_core x xs e' he' with hc | ⟨e, he, hc⟩
    · exact ⟨x, List.mem_cons_self x xs, hc⟩
    · exact ⟨e, List.mem_cons_of_mem x he, hc⟩

theorem renderExam_core {ea : List (String × String)}
    {ga : Option (List (String × String))} {e e' : Exam}
    (h : renderExam ea ga e = some e') : e'.core = e.core := by
  unfold renderExam at h
  split at h
  · exact absurd h (by simp)
  case _ nm hnm =>
    cases hg : render_group e.group_full ga with
    | none => rw [hg] at h; simp at h
    | some g =>
      rw [hg] at h
      injection h with h'
      rw [← h']
      rfl

theorem renderBucket_core {ea : List (String × String)}
    {ga : Option (List (String × String))} {l l' : List Exam}
    (h : renderBucket ea ga l = some l') :
    ∀ e' ∈ l', ∃ e ∈ l, e'.core = e.core := by
  induction l generalizing l' with
  | nil =>
    intro e' he'
    unfold renderBucket at h
    injection h with h'
    subst h'
    simp at he'
  | cons x xs ih =>
    intro e' he'
    unfold renderBucket at h
    split at h
    · exact absurd h (by simp)
    case _ x2 hx2 =>
      split at h
      · exact absurd h (by simp)
      case _ rest2 hrest2 =>
        injection h with h'
        subst h'
        rcases List.mem_cons.mp he' with rfl | he2
        · exact ⟨x, List.mem_cons_self x xs, renderExam_core hx2⟩
        · obtain ⟨e, he, hc⟩ := ih hrest2 e' he2
          exact ⟨e, List.mem_cons_of_mem x he, hc⟩

theorem sortAsc_mem {l : List Exam} {e : Exam} (h : e ∈ sortAsc l) : e ∈ l :=
  (List.perm_insertionSort keyR l).mem_iff.mp h

theorem sortDesc_mem {l : List Exam} {e : Exam} (h : e ∈ sortDesc l) : e ∈ l :=
  (List.perm_insertionSort keyRD l).mem_iff.mp h

/-- C8: through classification, sorting, deduplication and rendering, the
six fields educator identifier, time, date, title, location and full group
name (`Exam.core`) of every record of the output are exactly those of some
input record: the pipeline only rewrites the derived display fields
(`educator`, `group`) and the multi-educator flag. -/
theorem C8_core_fields_preserved (today : Date) (excluded_depts : List String)
    (ea : List (String × String)) (ga : Option (List (String × String)))
    (l r c p : List Exam)
    (h : compileExams today excluded_depts ea ga l = some (r, c, p)) :
    ∀ e' ∈ r ++ c ++ p, ∃ e ∈ l, e'.core = e.core := by
  unfold compileExams at h
  simp only [] at h
  split at h
  case _ r1 c1 p1 hr1 hc1 hp1 =>
    split at h
    case _ r2 c2 p2 hr2 hc2 hp2 =>
      injection h with h'
      injection h' with h1 h'
      injection h' with h2 h3
      subst h1; subst h2; subst h3
      intro e' he'
      rcases List.mem_append.mp he' with he' | he2
      rcases List.mem_append.mp he' with he1 | he2'
      · obtain ⟨e1, hm1, hq1⟩ := renderBucket_core hr2 e' he1
        obtain ⟨e2, hm2, hq2⟩ := dedup_core hr1 e1 hm1
        exact ⟨e2, List.mem_of_mem_filter (sortAsc_mem hm2),
          hq1.trans hq2⟩
      · obtain ⟨e1, hm1, hq1⟩ := renderBucket_core hc2 e' he2'
        obtain ⟨e2, hm2, hq2⟩ := dedup_core hc1 e1 hm1
        exact ⟨e2, List.mem_of_mem_filter (sortAsc_mem hm2),
          hq1.trans hq2⟩
      · obtain ⟨e1, hm1, hq1⟩ := renderBucket_core hp2 e' he2
        obtain ⟨e2, hm2, hq2⟩ := dedup_core hp1 e1 hm1
        exact ⟨e2, List.mem_of_mem_filter (sortDesc_mem hm2),
          hq1.trans hq2⟩
    · exact absurd h (by simp)
  · exact absurd h (by simp)

/-- Witness for C8: a concrete three-record run of the pipeline (one record
per bucket); the rendered regular-bucket record keeps the six immutable
fields of some input record. -/
theorem C8_witness :
    ∃ e ∈ [e0, eCom, ePast],
      ({ e0 with educator := "Иванов", group := "МАТ-1" } : Exam).core = e.core :=
  C8_core_fields_preserved ⟨2026, 10, 12⟩ ["мкн"]
    [("1001", "Иванов"), ("1002", "Петров"), ("1003", "Сидоров")] none
    [e0, eCom, ePast]
    [{ e0 with educator := "Иванов", group := "МАТ-1" }]
    [{ eCom with educator := "Петров", group := "МАТ-1" }]
    [{ ePast with educator := "Сидоров", group := "МАТ-1" }]
    (by decide)
    { e0 with educator := "Иванов", group := "МАТ-1" }
    (by decide)
